import Mathlib

/-!
Verification development for `dotfiles/core.py` (version 0.5.3), a small
symlink-farm manager.  The module is embedded shallowly: the POSIX
filesystem is modelled as an association list from absolute, already
normalised path strings to entries (regular file, directory, or symbolic
link), and every effectful operation of the source becomes a Lean function
that threads the filesystem state explicitly and returns
`Except (Err × FS)` so that an exception carries the state at the moment
it was raised.  Printed output is collected in a `List String`.

Modelling conventions:
* paths are absolute and normalised; `os.path.realpath` is modelled as
  resolving a chain of symbolic links at the final component, with fuel
  bounded by the number of filesystem entries (the source never relies on
  component-wise resolution or `..` normalisation);
* a directory's children are the entries whose key extends the directory's
  key with a `/` separator;
* the platform is POSIX (`sys.platform != 'win32'`), so `SEPARATORS = "/"`
  and `symlink = os.symlink`.
-/

namespace DotfilesCore

/-- A filesystem entry: a regular file (with its content), a directory, or
a symbolic link storing its (unresolved) target path. -/
inductive Entry where
  | file (content : String)
  | dir
  | link (target : String)
deriving DecidableEq, Repr

/-- The filesystem: an association list from absolute paths to entries.
Lookup takes the first binding; all updating operations below remove every
binding of the key they write, so well-formed states never shadow. -/
abbrev FS := List (String × Entry)

/-- First-match association lookup. -/
def fsGet : FS → String → Option Entry
  | [], _ => none
  | (q, e) :: rest, p => if p = q then some e else fsGet rest p

/-- `listPre a b` holds when the character list `a` is a prefix of `b`. -/
def listPre : List Char → List Char → Bool
  | [], _ => true
  | _ :: _, [] => false
  | a :: as, b :: bs => decide (a = b) && listPre as bs

/-- `underPath root p`: `p` is strictly inside the directory `root`,
i.e. `p` starts with `root ++ "/"`. -/
def underPath (root p : String) : Bool :=
  listPre (root.data ++ ['/']) p.data

/-- Drop the first `n` characters of a string. -/
def dropChars (s : String) (n : Nat) : String :=
  String.mk (s.data.drop n)

/-- Remove every binding of path `p`. -/
def eraseAll (p : String) : FS → FS
  | [] => []
  | (q, e) :: rest => if q = p then eraseAll p rest else (q, e) :: eraseAll p rest

/-- Bind path `p` to entry `e`, removing previous bindings. -/
def fsInsert (p : String) (e : Entry) (fs : FS) : FS :=
  (p, e) :: eraseAll p fs

/-- `shutil.rmtree p`: remove `p` together with everything below it. -/
def rmtree (p : String) : FS → FS
  | [] => []
  | (q, e) :: rest =>
    if q = p ∨ underPath p q = true then rmtree p rest
    else (q, e) :: rmtree p rest

/-- Key translation for `os.rename src dst`: `src` becomes `dst` and the
subtree below `src` is re-rooted below `dst`; other keys are unchanged. -/
def remapKey (src dst q : String) : String :=
  if q = src then dst
  else if underPath src q = true then dst ++ dropChars q src.length
  else q

/-- The state change of `os.rename src dst`: whatever was at `dst` (and
below it) is replaced, and the tree rooted at `src` is re-rooted at `dst`. -/
def moveTree (src dst : String) : FS → FS
  | [] => []
  | (q, e) :: rest =>
    if q = dst ∨ underPath dst q = true then moveTree src dst rest
    else (remapKey src dst q, e) :: moveTree src dst rest

/-- Link-chain resolution with explicit fuel. -/
def realpathN (fs : FS) : Nat → String → String
  | 0, p => p
  | k + 1, p =>
    match fsGet fs p with
    | some (Entry.link t) => realpathN fs k t
    | _ => p

/-- `os.path.realpath`: follow symbolic links until a non-link (or missing)
path is reached.  The fuel `fs.length + 1` exhausts any acyclic chain. -/
def realpath (fs : FS) (p : String) : String :=
  realpathN fs (fs.length + 1) p

/-- `os.path.lexists`: something is present at `p`, links not followed, so
a broken symbolic link counts as present. -/
def lexists (fs : FS) (p : String) : Bool :=
  (fsGet fs p).isSome

/-- `os.path.exists`: something is present at `p` after following links. -/
def existsF (fs : FS) (p : String) : Bool :=
  (fsGet fs (realpath fs p)).isSome

/-- `os.path.islink`: a symbolic link is present at `p` itself. -/
def islink (fs : FS) (p : String) : Bool :=
  match fsGet fs p with
  | some (Entry.link _) => true
  | _ => false

/-- `os.path.isdir`: `p` resolves (through links) to a directory. -/
def isdir (fs : FS) (p : String) : Bool :=
  match fsGet fs (realpath fs p) with
  | some Entry.dir => true
  | _ => false

/-- `s.startsWith pre`, computed structurally on the character lists so
that the kernel can evaluate it. -/
def strStarts (pre s : String) : Bool :=
  listPre pre.data s.data

/-- Whether a string ends with `/`. -/
def endsSlash (s : String) : Bool :=
  match s.data.getLast? with
  | some '/' => true
  | _ => false

/-- `os.path.join a b` for absolute-or-relative `b` on POSIX. -/
def pathJoin (a b : String) : String :=
  if strStarts "/" b then b
  else if a = "" ∨ endsSlash a = true then a ++ b
  else a ++ "/" ++ b

/-- `os.path.basename`: the part after the last `/`. -/
def basename (p : String) : String :=
  String.mk (p.data.reverse.takeWhile (fun c => decide (c ≠ '/'))).reverse

/-- `target.rstrip(SEPARATORS)` with `SEPARATORS = "/"`. -/
def rstripSep (s : String) : String :=
  String.mk (s.data.reverse.dropWhile (fun c => c = '/')).reverse

/-- `os.path.expanduser` relative to the invoking user's home directory
`userHome` (the `~user` form is not used by the source's callers). -/
def expanduser (userHome p : String) : String :=
  if p = "~" then userHome
  else if strStarts "~/" p then userHome ++ dropChars p 1
  else p

/-- `fnmatch.fnmatch` pattern matching over character lists, for the `*`
and `?` wildcards used by ignore patterns (POSIX `normcase` is the
identity; the `[seq]` form is not needed by the repository's callers).
The recursion is fuelled so that the kernel can evaluate it; every step
shrinks `ps.length + s.length`, so any fuel above that sum is exact. -/
def globMatchN : Nat → List Char → List Char → Bool
  | 0, _, _ => false
  | _ + 1, [], [] => true
  | _ + 1, [], _ :: _ => false
  | k + 1, '*' :: ps, [] => globMatchN k ps []
  | k + 1, '*' :: ps, c :: cs =>
    globMatchN k ps (c :: cs) || globMatchN k ('*' :: ps) cs
  | _ + 1, '?' :: _, [] => false
  | k + 1, '?' :: ps, _ :: cs => globMatchN k ps cs
  | _ + 1, _ :: _, [] => false
  | k + 1, p :: ps, c :: cs => decide (p = c) && globMatchN k ps cs

/-- `fnmatch.fnmatch name pat` on strings. -/
def fnmatchOne (pat s : String) : Bool :=
  globMatchN (pat.length + s.length + 1) pat.data s.data

/-- The exceptions the embedded operations can raise. -/
inductive Err where
  | valueError (msg : String)
  | fileNotFound (p : String)
  | isADirectory (p : String)
  | fileExists (p : String)
  | moveError (msg : String)
  | keyError (k : String)
deriving DecidableEq, Repr

/-- `os.remove p`: remove a single non-directory entry; raises when nothing
is at `p` or when `p` is a directory. -/
def osRemove (fs : FS) (p : String) : Except (Err × FS) FS :=
  match fsGet fs p with
  | none => .error (Err.fileNotFound p, fs)
  | some Entry.dir => .error (Err.isADirectory p, fs)
  | some _ => .ok (eraseAll p fs)

/-- `os.rename src dst` (the `shutil.move` fast path on one filesystem):
atomically replaces `dst` by the tree rooted at `src`.  Renaming onto an
existing directory raises (the source never renames onto a directory). -/
def rename (fs : FS) (src dst : String) : Except (Err × FS) FS :=
  if lexists fs src = false then .error (Err.fileNotFound src, fs)
  else if fsGet fs dst = some Entry.dir then .error (Err.isADirectory dst, fs)
  else .ok (moveTree src dst fs)

/-- `shutil.move src dst`: when `dst` is (resolves to) a directory the
source is moved inside it, refusing to overwrite; otherwise `dst` is
replaced by a rename. -/
def shutilMove (fs : FS) (src dst : String) : Except (Err × FS) FS :=
  if isdir fs dst then
    let realDst := pathJoin dst (basename src)
    if existsF fs realDst then
      .error (Err.moveError ("Destination path '" ++ realDst ++ "' already exists"), fs)
    else rename fs src realDst
  else rename fs src dst

/-- `symlink` from `dotfiles.core` on POSIX, i.e. `os.symlink(source,
link_name)`: creates the link (even when `source` does not exist) and
raises when something is already present at `link_name`. -/
def symlink (fs : FS) (source linkName : String) : Except (Err × FS) FS :=
  if lexists fs linkName then .error (Err.fileExists linkName, fs)
  else .ok (fsInsert linkName (Entry.link source) fs)

/-- `delete` from `dotfiles.core`: `shutil.rmtree` for a real directory
(not itself a link), `os.remove` otherwise. -/
def delete (fs : FS) (p : String) : Except (Err × FS) FS :=
  if isdir fs p && !(islink fs p) then .ok (rmtree p fs)
  else osRemove fs p

/-- One managed name/target pairing, with the status string cached at
construction time exactly as `Dotfile.__init__` leaves it. -/
structure Dotfile where
  name : String
  basename : String
  target : String
  status : String
deriving DecidableEq, Repr

/-- `Dotfile.__init__(name, target, home)`: absolutise `name` against
`home`, strip trailing separators from `target`, and compute the status
by filesystem inspection (`lexists`, then `realpath` comparison). -/
def Dotfile.init (fs : FS) (name target home : String) : Dotfile :=
  let n := pathJoin home name
  let t := rstripSep target
  { name := n
    basename := DotfilesCore.basename n
    target := t
    status :=
      if lexists fs n = false then "missing"
      else if realpath fs n ≠ t then "unsynced"
      else "" }

/-- `Dotfile.sync(handle_existing)`.  The fall-through of the source (the
`symlink` call shared by the `missing`, `overwrite` and `re-add` paths) is
written once per path for proof transparency. -/
def Dotfile.sync (d : Dotfile) (handleExisting : String) (fs : FS) :
    Except (Err × FS) (Dotfile × FS × List String) :=
  if handleExisting ∉ (["skip", "overwrite", "re-add"] : List String) then
    .error (Err.valueError ("unknown value for handle_exisiting: " ++ handleExisting), fs)
  else if d.status = "" then
    .ok (d, fs, [])
  else if d.status = "unsynced" ∧ handleExisting = "skip" then
    .ok (d, fs, ["Skipping \"" ++ d.basename ++ "\", use --force or --re-add to override"])
  else if d.status = "unsynced" ∧ handleExisting = "re-add" then
    match delete fs d.target with
    | .error e => .error e
    | .ok fs₁ =>
      match shutilMove fs₁ d.name d.target with
      | .error e => .error e
      | .ok fs₂ =>
        match symlink fs₂ d.target d.name with
        | .error e => .error e
        | .ok fs₃ => .ok ({ d with status := "" }, fs₃, [])
  else if d.status = "unsynced" then
    match delete fs d.name with
    | .error e => .error e
    | .ok fs₁ =>
      match symlink fs₁ d.target d.name with
      | .error e => .error e
      | .ok fs₂ => .ok ({ d with status := "" }, fs₂, [])
  else
    match symlink fs d.target d.name with
    | .error e => .error e
    | .ok fs₁ => .ok ({ d with status := "" }, fs₁, [])

/-- `Dotfile.add()`. -/
def Dotfile.add (d : Dotfile) (fs : FS) :
    Except (Err × FS) (Dotfile × FS × List String) :=
  if d.status = "missing" then
    .ok (d, fs, ["Skipping \"" ++ d.basename ++ "\", file not found"])
  else if d.status = "" then
    .ok (d, fs, ["Skipping \"" ++ d.basename ++ "\", already managed"])
  else
    match shutilMove fs d.name d.target with
    | .error e => .error e
    | .ok fs₁ =>
      match symlink fs₁ d.target d.name with
      | .error e => .error e
      | .ok fs₂ => .ok ({ d with status := "" }, fs₂, [])

/-- `Dotfile.remove()`.  The source's final line `self.status ==
'unsynced'` is a comparison, not an assignment, so the status field is
left unchanged. -/
def Dotfile.remove (d : Dotfile) (fs : FS) :
    Except (Err × FS) (Dotfile × FS × List String) :=
  if d.status ≠ "" then
    .ok (d, fs, ["Skipping \"" ++ d.basename ++ "\", file is " ++ d.status])
  else
    match osRemove fs d.name with
    | .error e => .error e
    | .ok fs₁ =>
      match shutilMove fs₁ d.target d.name with
      | .error e => .error e
      | .ok fs₂ => .ok (d, fs₂, [])

/-- `Dotfiles.__attrs__`, the recognised configuration keys. -/
def dotfilesAttrs : List String :=
  ["homedir", "repository", "prefix", "ignore", "externals"]

/-- The keyword-argument loop of `Dotfiles.__init__`: recognised keys are
stored by `setattr` (later occurrences win, as with repeated `setattr`);
every other key produces a `warnings.warn` message and is not stored.
Returns the stored pairs and the warnings, each in argument order. -/
def initKwargs {α : Type} (kwargs : List (String × α)) :
    List (String × α) × List String :=
  (kwargs.filter (fun kv => decide (kv.1 ∈ dotfilesAttrs)),
   (kwargs.filter (fun kv => decide (kv.1 ∉ dotfilesAttrs))).map
     (fun kv => "unknown keyword argument '" ++ kv.1 ++ "'"))

/-- The repository: configuration plus the derived `dotfiles` list.  The
field `pfx` embeds the source's `prefix` attribute. -/
structure Dotfiles where
  homedir : String
  repository : String
  pfx : String
  ignore : List String
  externals : List (String × String)
  dotfiles : List Dotfile
deriving DecidableEq, Repr

/-- `os.listdir d`: the names (final components) of the entries directly
under `d`, in filesystem-list order, possibly with duplicates when the
state shadows a key. -/
def listdir (fs : FS) (d : String) : List String :=
  (fs.map Prod.fst).filterMap (fun p =>
    if underPath d p = true ∧
        (dropChars p (d.length + 1)).data.any (fun c => decide (c = '/')) = false then
      some (dropChars p (d.length + 1))
    else none)

/-- First-occurrence deduplication (the `set(...)` conversion of `_load`;
set iteration order is unspecified in Python, so any duplicate-free
enumeration is a faithful model). -/
def dedupAux (seen : List String) : List String → List String
  | [] => []
  | x :: rest =>
    if x ∈ seen then dedupAux seen rest else x :: dedupAux (x :: seen) rest

/-- Deduplicate a list of names. -/
def dedup (l : List String) : List String :=
  dedupAux [] l

/-- The `repofiles_to_symlink` set of `Dotfiles._load`: the directory
listing of the repository as a set, minus every name matched by some
ignore pattern. -/
def repofilesToSymlink (fs : FS) (df : Dotfiles) : List String :=
  (dedup (listdir fs df.repository)).filter
    (fun f => !(df.ignore.any (fun pat => fnmatchOne pat f)))

/-- `Dotfiles._load()`: rebuild the `dotfiles` list from the repository
listing (prefix swapped for a leading dot) and the externals mapping
(targets expanded for `~`). -/
def Dotfiles.load (df : Dotfiles) (userHome : String) (fs : FS) : Dotfiles :=
  { df with dotfiles :=
      (repofilesToSymlink fs df).map (fun f =>
        Dotfile.init fs ("." ++ dropChars f df.pfx.length)
          (pathJoin df.repository f) df.homedir)
      ++ df.externals.map (fun kv =>
        Dotfile.init fs kv.1 (expanduser userHome kv.2) df.homedir) }

/-- The loop body of `Dotfiles.sync`: `Dotfile.sync` applied to each
dotfile in order, threading the filesystem; a raised exception propagates
out of the loop. -/
def syncAll (ds : List Dotfile) (handleExisting : String) (fs : FS) :
    Except (Err × FS) (List Dotfile × FS × List String) :=
  match ds with
  | [] => .ok ([], fs, [])
  | d :: rest =>
    match d.sync handleExisting fs with
    | .error e => .error e
    | .ok (d₁, fs₁, out₁) =>
      match syncAll rest handleExisting fs₁ with
      | .error e => .error e
      | .ok (ds₂, fs₂, out₂) => .ok (d₁ :: ds₂, fs₂, out₁ ++ out₂)

/-- `Dotfiles.sync(handle_existing)`. -/
def Dotfiles.sync (df : Dotfiles) (handleExisting : String) (fs : FS) :
    Except (Err × FS) (Dotfiles × FS × List String) :=
  match syncAll df.dotfiles handleExisting fs with
  | .error e => .error e
  | .ok (ds, fs₁, out) => .ok ({ df with dotfiles := ds }, fs₁, out)

/-- First-match association lookup on string pairs (the access
`old_statuses[dotfile.name]`; the dotfile names produced by a load are
pairwise distinct keys in practice, so first-match equals dict access). -/
def strLookup : List (String × String) → String → Option String
  | [], _ => none
  | (k, v) :: rest, q => if q = k then some v else strLookup rest q

/-- The repair loop at the end of `Dotfiles.move`: every dotfile whose
recorded pre-move status was synced but is now `unsynced` is re-synced
with `overwrite`; a missing key in the recorded dict raises `KeyError`. -/
def moveResync (old : List (String × String)) :
    List Dotfile → FS → Except (Err × FS) (List Dotfile × FS × List String)
  | [], fs => .ok ([], fs, [])
  | d :: rest, fs =>
    match strLookup old d.name with
    | none => .error (Err.keyError d.name, fs)
    | some st =>
      if st = "" ∧ d.status = "unsynced" then
        match d.sync "overwrite" fs with
        | .error e => .error e
        | .ok (d₁, fs₁, out₁) =>
          match moveResync old rest fs₁ with
          | .error e => .error e
          | .ok (ds, fs₂, out₂) => .ok (d₁ :: ds, fs₂, out₁ ++ out₂)
      else
        match moveResync old rest fs with
        | .error e => .error e
        | .ok (ds, fs₂, out₂) => .ok (d :: ds, fs₂, out₂)

/-- `Dotfiles.move(target)`: refuse an existing target, else move the
repository directory, update the stored path, reload, and repair links
broken purely by the relocation. -/
def Dotfiles.move (df : Dotfiles) (target userHome : String) (fs : FS) :
    Except (Err × FS) (Dotfiles × FS × List String) :=
  if existsF fs target then
    .error (Err.valueError ("Target already exists: " ++ target), fs)
  else
    let old := df.dotfiles.map (fun d => (d.name, d.status))
    match shutilMove fs df.repository target with
    | .error e => .error e
    | .ok fs₁ =>
      let df₁ := Dotfiles.load { df with repository := target } userHome fs₁
      match moveResync old df₁.dotfiles fs₁ with
      | .error e => .error e
      | .ok (ds, fs₂, out) => .ok ({ df₁ with dotfiles := ds }, fs₂, out)

/-! ### Laws of the filesystem primitives -/

theorem fsGet_eraseAll (p q : String) (fs : FS) :
    fsGet (eraseAll p fs) q = if q = p then none else fsGet fs q := by
  induction fs with
  | nil => simp [eraseAll, fsGet]
  | cons b rest ih =>
    obtain ⟨k, e⟩ := b
    by_cases hk : k = p
    · subst hk
      by_cases hq : q = k
      · subst hq
        simp [eraseAll, ih]
      · simp [eraseAll, fsGet, hq, ih]
    · by_cases hq : q = k
      · subst hq
        simp [eraseAll, fsGet, hk, ih]
      · simp [eraseAll, fsGet, hk, hq, ih]

theorem fsGet_fsInsert (p q : String) (e : Entry) (fs : FS) :
    fsGet (fsInsert p e fs) q = if q = p then some e else fsGet fs q := by
  by_cases hq : q = p <;> simp [fsInsert, fsGet, fsGet_eraseAll, hq]

theorem fsGet_rmtree (p q : String) (fs : FS) :
    fsGet (rmtree p fs) q =
      if q = p ∨ underPath p q = true then none else fsGet fs q := by
  induction fs with
  | nil => simp [rmtree, fsGet]
  | cons b rest ih =>
    obtain ⟨k, e⟩ := b
    by_cases hk : k = p ∨ underPath p k = true
    · have hqk : q = k → (q = p ∨ underPath p q = true) := by
        rintro rfl; exact hk
      by_cases hq : q = k
      · simp [rmtree, hk, ih, hqk hq]
      · simp [rmtree, fsGet, hk, hq, ih]
    · by_cases hq : q = k
      · subst hq
        simp [rmtree, fsGet, hk, ih]
      · simp [rmtree, fsGet, hk, hq, ih]

theorem listPre_iff (a b : List Char) : listPre a b = true ↔ ∃ r, b = a ++ r := by
  induction a generalizing b with
  | nil => simp [listPre]
  | cons x xs ih =>
    cases b with
    | nil =>
      simp [listPre]
    | cons y ys =>
      simp only [listPre, Bool.and_eq_true, decide_eq_true_eq, ih]
      constructor
      · rintro ⟨rfl, r, rfl⟩
        exact ⟨r, rfl⟩
      · rintro ⟨r, h⟩
        rw [List.cons_append] at h
        injection h with h1 h2
        exact ⟨h1.symm, r, h2⟩

theorem underPath_iff (root p : String) :
    underPath root p = true ↔ ∃ r, p.data = root.data ++ '/' :: r := by
  simp [underPath, listPre_iff]

theorem string_eq_iff_data (s t : String) : s = t ↔ s.data = t.data := by
  constructor
  · rintro rfl; rfl
  · intro h
    cases s; cases t; cases h; rfl

theorem ne_of_underPath (root p : String) (h : underPath root p = true) :
    p ≠ root := by
  obtain ⟨r, hr⟩ := (underPath_iff root p).mp h
  intro hc
  subst hc
  have := congrArg List.length hr
  simp at this

theorem remapKey_under (src dst q : String) (hq : underPath src q = true) :
    underPath dst (dst ++ dropChars q src.length) = true := by
  obtain ⟨r, hr⟩ := (underPath_iff src q).mp hq
  apply (underPath_iff dst _).mpr
  refine ⟨r, ?_⟩
  have hdrop : (dropChars q src.length).data = '/' :: r := by
    show (q.data.drop src.length) = '/' :: r
    have hlen : src.length = src.data.length := rfl
    rw [hlen, hr]
    have : src.data ++ '/' :: r = src.data ++ ('/' :: r) := rfl
    rw [this, List.drop_left]
  show (dst ++ dropChars q src.length).data = dst.data ++ '/' :: r
  have happ : (dst ++ dropChars q src.length).data
      = dst.data ++ (dropChars q src.length).data := rfl
  rw [happ, hdrop]

theorem fsGet_moveTree_dst (src dst : String) (fs : FS)
    (h1 : src ≠ dst) (h2 : underPath dst src = false) :
    fsGet (moveTree src dst fs) dst = fsGet fs src := by
  induction fs with
  | nil => simp [moveTree, fsGet]
  | cons b rest ih =>
    obtain ⟨k, e⟩ := b
    by_cases hk : k = dst ∨ underPath dst k = true
    · have hks : k ≠ src := by
        rintro rfl
        rcases hk with hk | hk
        · exact h1 hk
        · rw [hk] at h2; cases h2
      simp [moveTree, hk, ih, fsGet, Ne.symm hks]
    · by_cases hsrc : k = src
      · subst hsrc
        simp [moveTree, hk, fsGet, remapKey]
      · by_cases hund : underPath src k = true
        · have hne : dst ≠ dst ++ dropChars k src.length := by
            have := remapKey_under src dst k hund
            exact (ne_of_underPath dst _ this).symm
          simp [moveTree, hk, fsGet, remapKey, hsrc, hund, hne, ih, Ne.symm hsrc]
        · have hkd : k ≠ dst := by
            intro hc; exact hk (Or.inl hc)
          simp [moveTree, hk, fsGet, remapKey, hsrc, hund, Ne.symm hkd, ih, Ne.symm hsrc]

theorem fsGet_moveTree_src (src dst : String) (fs : FS)
    (h1 : src ≠ dst) (h2 : underPath dst src = false) :
    fsGet (moveTree src dst fs) src = none := by
  induction fs with
  | nil => simp [moveTree, fsGet]
  | cons b rest ih =>
    obtain ⟨k, e⟩ := b
    by_cases hk : k = dst ∨ underPath dst k = true
    · simp [moveTree, hk, ih]
    · by_cases hsrc : k = src
      · subst hsrc
        simp [moveTree, hk, fsGet, remapKey, h1, h2, ih]
      · by_cases hund : underPath src k = true
        · have hne : src ≠ dst ++ dropChars k src.length := by
            intro hc
            have := remapKey_under src dst k hund
            rw [← hc] at this
            rw [this] at h2; cases h2
          simp [moveTree, hk, fsGet, remapKey, hsrc, hund, hne, ih]
        · simp [moveTree, hk, fsGet, remapKey, hsrc, hund, Ne.symm hsrc, ih]

theorem realpath_of_islink_false (fs : FS) (p : String) (h : islink fs p = false) :
    realpath fs p = p := by
  unfold realpath realpathN
  cases hfs : fsGet fs p with
  | none => simp [hfs]
  | some e =>
    cases e with
    | file c => simp [hfs]
    | dir => simp [hfs]
    | link t => simp [islink, hfs] at h

theorem islink_of_fsGet_none (fs : FS) (p : String) (h : fsGet fs p = none) :
    islink fs p = false := by
  simp [islink, h]

theorem islink_of_fsGet_file (fs : FS) (p : String) (c : String)
    (h : fsGet fs p = some (Entry.file c)) : islink fs p = false := by
  simp [islink, h]

theorem islink_of_fsGet_dir (fs : FS) (p : String)
    (h : fsGet fs p = some Entry.dir) : islink fs p = false := by
  simp [islink, h]

theorem isdir_of_fsGet_none (fs : FS) (p : String) (h : fsGet fs p = none) :
    isdir fs p = false := by
  have hrp : realpath fs p = p :=
    realpath_of_islink_false fs p (islink_of_fsGet_none fs p h)
  simp [isdir, hrp, h]

theorem isdir_of_fsGet_file (fs : FS) (p : String) (c : String)
    (h : fsGet fs p = some (Entry.file c)) : isdir fs p = false := by
  have hrp : realpath fs p = p :=
    realpath_of_islink_false fs p (islink_of_fsGet_file fs p c h)
  simp [isdir, hrp, h]

theorem isdir_of_fsGet_dir (fs : FS) (p : String)
    (h : fsGet fs p = some Entry.dir) : isdir fs p = true := by
  have hrp : realpath fs p = p :=
    realpath_of_islink_false fs p (islink_of_fsGet_dir fs p h)
  simp [isdir, hrp, h]

/-- `delete` succeeds on any present path, removes that path, and touches
nothing outside the deleted subtree. -/
theorem delete_of_lexists (fs : FS) (p : String) (h : lexists fs p = true) :
    ∃ fs₁, delete fs p = .ok fs₁ ∧ fsGet fs₁ p = none ∧
      ∀ q, q ≠ p → underPath p q = false → fsGet fs₁ q = fsGet fs q := by
  cases hfs : fsGet fs p with
  | none => simp [lexists, hfs] at h
  | some e =>
    cases e with
    | file c =>
      refine ⟨eraseAll p fs, ?_, ?_, ?_⟩
      · simp [delete, isdir_of_fsGet_file fs p c hfs, osRemove, hfs]
      · simp [fsGet_eraseAll]
      · intro q hq _; simp [fsGet_eraseAll, hq]
    | dir =>
      refine ⟨rmtree p fs, ?_, ?_, ?_⟩
      · simp [delete, isdir_of_fsGet_dir fs p hfs, islink_of_fsGet_dir fs p hfs]
      · simp [fsGet_rmtree]
      · intro q hq hu; simp [fsGet_rmtree, hq, hu]
    | link t =>
      refine ⟨eraseAll p fs, ?_, ?_, ?_⟩
      · have hl : islink fs p = true := by simp [islink, hfs]
        simp [delete, hl, osRemove, hfs]
      · simp [fsGet_eraseAll]
      · intro q hq _; simp [fsGet_eraseAll, hq]

/-! ### Claim theorems -/

/-- C1: a `Dotfile` constructed with `(name, target, home)` has status
`missing` exactly when nothing is at the computed absolute name (link
existence, not following, so a broken link counts as present), status
`unsynced` exactly when something is there but its resolved real path
differs from the normalised target, and the synced status (the empty
string) exactly when something is there and resolves to the target. -/
theorem dotfile_status_characterization (fs : FS) (name target home : String) :
    ((Dotfile.init fs name target home).status = "missing"
        ↔ lexists fs (pathJoin home name) = false) ∧
    ((Dotfile.init fs name target home).status = "unsynced"
        ↔ lexists fs (pathJoin home name) = true
          ∧ realpath fs (pathJoin home name) ≠ rstripSep target) ∧
    ((Dotfile.init fs name target home).status = ""
        ↔ lexists fs (pathJoin home name) = true
          ∧ realpath fs (pathJoin home name) = rstripSep target) := by
  have hms : ("missing" : String) ≠ "unsynced" := by decide
  have hme : ("missing" : String) ≠ "" := by decide
  have hue : ("unsynced" : String) ≠ "" := by decide
  unfold Dotfile.init
  by_cases h1 : lexists fs (pathJoin home name) = false
  · simp [h1, hms, hme]
  · have h1' : lexists fs (pathJoin home name) = true := by
      cases hv : lexists fs (pathJoin home name)
      · exact absurd hv h1
      · rfl
    by_cases h2 : realpath fs (pathJoin home name) = rstripSep target
    · simp [h1, h1', h2, hme.symm, hue.symm]
    · simp [h1, h1', h2, hms.symm, hue]

/-- C2: `Dotfiles.move` to a target that already exists on the filesystem
(in the sense of `os.path.exists`, the check the source performs) raises a
`ValueError` naming the target and leaves the filesystem — repository
directory, links and all — exactly as before; the stored repository path
is only updated on the success path, which is not reached. -/
theorem move_existing_target_errors (df : Dotfiles) (target userHome : String)
    (fs : FS) (h : existsF fs target = true) :
    Dotfiles.move df target userHome fs =
      .error (Err.valueError ("Target already exists: " ++ target), fs) := by
  simp [Dotfiles.move, h]

/-- Witness for C2 at a concrete repository and an existing target. -/
theorem move_existing_target_errors_witness :
    Dotfiles.move
        { homedir := "/h", repository := "/repo", pfx := "dot-",
          ignore := [], externals := [], dotfiles := [] }
        "/t" "/h" [("/t", Entry.file "x")] =
      .error (Err.valueError "Target already exists: /t", [("/t", Entry.file "x")]) :=
  move_existing_target_errors _ "/t" "/h" _ (by decide)

/-- C6: `Dotfile.sync` with a `handle_existing` value outside
`{skip, overwrite, re-add}` raises a `ValueError` reporting the value and
leaves the filesystem unchanged. -/
theorem sync_invalid_mode_errors (d : Dotfile) (m : String) (fs : FS)
    (h : m ∉ (["skip", "overwrite", "re-add"] : List String)) :
    Dotfile.sync d m fs =
      .error (Err.valueError ("unknown value for handle_exisiting: " ++ m), fs) := by
  simp [Dotfile.sync, h]

/-- Witness for C6 at a concrete dotfile and the invalid mode `force`. -/
theorem sync_invalid_mode_errors_witness :
    Dotfile.sync
        { name := "/h/.a", basename := ".a", target := "/r/a", status := "unsynced" }
        "force" [] =
      .error (Err.valueError "unknown value for handle_exisiting: force", []) :=
  sync_invalid_mode_errors _ "force" [] (by decide)

/-- C10: `Dotfile.sync` validates `handle_existing` before inspecting the
status: on an already synced dotfile — for which a valid mode is a
side-effect-free no-op — an invalid mode still raises the `ValueError`
instead of returning as a no-op. -/
theorem sync_mode_checked_before_status (d : Dotfile) (m : String) (fs : FS)
    (h1 : d.status = "") (h2 : m ∉ (["skip", "overwrite", "re-add"] : List String)) :
    Dotfile.sync d m fs =
      .error (Err.valueError ("unknown value for handle_exisiting: " ++ m), fs) ∧
    Dotfile.sync d "skip" fs = .ok (d, fs, []) := by
  constructor
  · simp [Dotfile.sync, h2]
  · simp [Dotfile.sync, h1]

/-- Witness for C10 at a concrete synced dotfile and the invalid mode
`merge`. -/
theorem sync_mode_checked_before_status_witness :
    Dotfile.sync
        { name := "/h/.a", basename := ".a", target := "/r/a", status := "" }
        "merge" [] =
      .error (Err.valueError "unknown value for handle_exisiting: merge", []) ∧
    Dotfile.sync
        { name := "/h/.a", basename := ".a", target := "/r/a", status := "" }
        "skip" [] =
      .ok ({ name := "/h/.a", basename := ".a", target := "/r/a", status := "" }, [], []) :=
  sync_mode_checked_before_status _ "merge" [] (by decide) (by decide)

/-- C7: every keyword argument to `Dotfiles.__init__` whose key is not one
of `homedir, repository, prefix, ignore, externals` produces a warning
naming that key, and the key is never stored as an attribute. -/
theorem init_unknown_key_warned {α : Type} (kwargs : List (String × α))
    (k : String) (v : α) (h1 : (k, v) ∈ kwargs) (h2 : k ∉ dotfilesAttrs) :
    ("unknown keyword argument '" ++ k ++ "'") ∈ (initKwargs kwargs).2 ∧
    ∀ w, (k, w) ∉ (initKwargs kwargs).1 := by
  constructor
  · simp only [initKwargs]
    apply List.mem_map.mpr
    refine ⟨(k, v), ?_, rfl⟩
    apply List.mem_filter.mpr
    exact ⟨h1, by simpa using h2⟩
  · intro w hw
    simp only [initKwargs] at hw
    have hmem := (List.mem_filter.mp hw).2
    simp at hmem
    exact h2 hmem

/-- Witness for C7 at a concrete keyword list with the typo key
`homedirr`. -/
theorem init_unknown_key_warned_witness :
    ("unknown keyword argument 'homedirr'")
        ∈ (initKwargs [("homedirr", "/h"), ("repository", "/r")]).2 ∧
    ∀ w, ("homedirr", w) ∉ (initKwargs [("homedirr", "/h"), ("repository", "/r")]).1 :=
  init_unknown_key_warned [("homedirr", "/h"), ("repository", "/r")]
    "homedirr" "/h" (by decide) (by decide)

/-- C8: every entry listed directly under the repository directory that
matches no ignore pattern yields a loaded `Dotfile` whose home-side name
is the home directory joined with `.` followed by the entry's filename
with the first `len(prefix)` characters removed (this is what "stripping
the prefix" does in the source, also for filenames that do not begin with
the prefix), and whose target is the repository path of the entry. -/
theorem load_derives_names (fs : FS) (df : Dotfiles) (userHome f : String)
    (h1 : f ∈ dedup (listdir fs df.repository))
    (h2 : ∀ pat ∈ df.ignore, fnmatchOne pat f = false) :
    ∃ d ∈ (Dotfiles.load df userHome fs).dotfiles,
      d.name = pathJoin df.homedir ("." ++ dropChars f df.pfx.length) ∧
      d.target = rstripSep (pathJoin df.repository f) := by
  have hall : df.ignore.any (fun pat => fnmatchOne pat f) = false := by
    rw [List.any_eq_false]
    intro pat hp
    simp [h2 pat hp]
  refine ⟨Dotfile.init fs ("." ++ dropChars f df.pfx.length)
    (pathJoin df.repository f) df.homedir, ?_, rfl, rfl⟩
  simp only [Dotfiles.load]
  apply List.mem_append_left
  apply List.mem_map.mpr
  refine ⟨f, ?_, rfl⟩
  apply List.mem_filter.mpr
  exact ⟨by simpa [repofilesToSymlink] using h1, by simp [repofilesToSymlink, hall]⟩

/-- C3: `Dotfile.sync` is idempotent.  When a call completes (with any
mode, which the call itself has validated), running `sync` again with the
same mode from the resulting state succeeds, changes nothing — the
resulting dotfile and filesystem are exactly those of the first call — and
so the second call performs no filesystem mutation. -/
theorem sync_idempotent (d : Dotfile) (m : String) (fs fs' : FS)
    (d' : Dotfile) (out : List String)
    (h : Dotfile.sync d m fs = .ok (d', fs', out)) :
    ∃ out₂, Dotfile.sync d' m fs' = .ok (d', fs', out₂) := by
  by_cases hm : m ∈ (["skip", "overwrite", "re-add"] : List String)
  · by_cases hs : d.status = ""
    · simp [Dotfile.sync, hm, hs] at h
      obtain ⟨h1, h2, h3⟩ := h
      subst h1; subst h2
      exact ⟨[], by simp [Dotfile.sync, hm, hs]⟩
    · by_cases hu : d.status = "unsynced"
      · by_cases hk : m = "skip"
        · subst hk
          simp [Dotfile.sync, hm, hs, hu] at h
          obtain ⟨h1, h2, h3⟩ := h
          subst h1; subst h2
          exact ⟨["Skipping \"" ++ d.basename ++ "\", use --force or --re-add to override"],
            by simp [Dotfile.sync, hm, hs, hu]⟩
        · simp only [Dotfile.sync] at h
          rw [if_neg (not_not_intro hm), if_neg hs,
            if_neg (fun hc => hk hc.2)] at h
          by_cases hr : m = "re-add"
          · rw [if_pos ⟨hu, hr⟩] at h
            cases hdel : delete fs d.target with
            | error e => simp [hdel] at h
            | ok fs₁ =>
              simp only [hdel] at h
              cases hmv : shutilMove fs₁ d.name d.target with
              | error e => simp [hmv] at h
              | ok fs₂ =>
                simp only [hmv] at h
                cases hsl : symlink fs₂ d.target d.name with
                | error e => simp [hsl] at h
                | ok fs₃ =>
                  simp only [hsl] at h
                  simp at h
                  obtain ⟨h1, h2, h3⟩ := h
                  subst h2
                  refine ⟨[], ?_⟩
                  have hds : d'.status = "" := by rw [← h1]
                  simp [Dotfile.sync, hm, hds]
          · rw [if_neg (fun hc => hr hc.2), if_pos hu] at h
            cases hdel : delete fs d.name with
            | error e => simp [hdel] at h
            | ok fs₁ =>
              simp only [hdel] at h
              cases hsl : symlink fs₁ d.target d.name with
              | error e => simp [hsl] at h
              | ok fs₂ =>
                simp only [hsl] at h
                simp at h
                obtain ⟨h1, h2, h3⟩ := h
                subst h2
                refine ⟨[], ?_⟩
                have hds : d'.status = "" := by rw [← h1]
                simp [Dotfile.sync, hm, hds]
      · simp only [Dotfile.sync] at h
        rw [if_neg (not_not_intro hm), if_neg hs,
          if_neg (fun hc => hu hc.1), if_neg (fun hc => hu hc.1),
          if_neg hu] at h
        cases hsl : symlink fs d.target d.name with
        | error e => simp [hsl] at h
        | ok fs₁ =>
          simp only [hsl] at h
          simp at h
          obtain ⟨h1, h2, h3⟩ := h
          subst h2
          refine ⟨[], ?_⟩
          have hds : d'.status = "" := by rw [← h1]
          simp [Dotfile.sync, hm, hds]
  · simp [Dotfile.sync, hm] at h

/-- Witness for C3: a missing dotfile synced twice with `skip`; the second
call is a no-op on the state produced by the first. -/
theorem sync_idempotent_witness :
    ∃ out₂,
      Dotfile.sync
          { name := "/h/.a", basename := ".a", target := "/r/a", status := "" }
          "skip" [("/h/.a", Entry.link "/r/a")] =
        .ok ({ name := "/h/.a", basename := ".a", target := "/r/a", status := "" },
          [("/h/.a", Entry.link "/r/a")], out₂) :=
  sync_idempotent
    { name := "/h/.a", basename := ".a", target := "/r/a", status := "missing" }
    "skip" [] [("/h/.a", Entry.link "/r/a")]
    { name := "/h/.a", basename := ".a", target := "/r/a", status := "" }
    [] (by rfl)

/-- Counterexample to C5 as stated: an unsynced dotfile whose
repository-side target does not exist.  `sync('re-add')` does not succeed
— `delete(self.target)` reaches `os.remove` on a non-existent path and a
`FileNotFoundError` propagates, before anything is moved or linked. -/
theorem sync_readd_missing_target_counterexample :
    (Dotfile.init [("/h/.a", Entry.file "conf")] ".a" "/repo/a" "/h").status
        = "unsynced" ∧
    lexists [("/h/.a", Entry.file "conf")] "/repo/a" = false ∧
    Dotfile.sync (Dotfile.init [("/h/.a", Entry.file "conf")] ".a" "/repo/a" "/h")
        "re-add" [("/h/.a", Entry.file "conf")] =
      .error (Err.fileNotFound "/repo/a", [("/h/.a", Entry.file "conf")]) :=
  ⟨by decide, by decide, by rfl⟩

/-- C5 (amended): on a dotfile with status `unsynced`, `sync('re-add')`
deletes the current repository-side target — which must exist, otherwise
the deletion raises a file-not-found error — then moves the existing
entry at `name` into `target`'s place and creates a symbolic link at
`name` pointing to `target`. -/
theorem sync_readd_behavior (fs : FS) (d : Dotfile) (en : Entry)
    (h1 : d.status = "unsynced")
    (h2 : lexists fs d.target = true)
    (h3 : fsGet fs d.name = some en)
    (h4 : d.name ≠ d.target)
    (h5 : underPath d.target d.name = false) :
    ∃ fs₃, Dotfile.sync d "re-add" fs = .ok ({ d with status := "" }, fs₃, []) ∧
      fsGet fs₃ d.name = some (Entry.link d.target) ∧
      fsGet fs₃ d.target = some en := by
  obtain ⟨fs₁, hdel, ht₁, hpres⟩ := delete_of_lexists fs d.target h2
  have hn₁ : fsGet fs₁ d.name = some en := by rw [hpres d.name h4 h5]; exact h3
  have hdir₁ : isdir fs₁ d.target = false := isdir_of_fsGet_none fs₁ d.target ht₁
  have hlex₁ : lexists fs₁ d.name = true := by simp [lexists, hn₁]
  have hmv : shutilMove fs₁ d.name d.target = .ok (moveTree d.name d.target fs₁) := by
    simp [shutilMove, hdir₁, rename, hlex₁, ht₁]
  have hn₂ : fsGet (moveTree d.name d.target fs₁) d.name = none :=
    fsGet_moveTree_src d.name d.target fs₁ h4 h5
  have ht₂ : fsGet (moveTree d.name d.target fs₁) d.target = some en := by
    rw [fsGet_moveTree_dst d.name d.target fs₁ h4 h5]; exact hn₁
  have hsl : symlink (moveTree d.name d.target fs₁) d.target d.name =
      .ok (fsInsert d.name (Entry.link d.target) (moveTree d.name d.target fs₁)) := by
    simp [symlink, lexists, hn₂]
  refine ⟨fsInsert d.name (Entry.link d.target) (moveTree d.name d.target fs₁),
    ?_, ?_, ?_⟩
  · have hmem : ("re-add" : String) ∈ (["skip", "overwrite", "re-add"] : List String) := by
      decide
    have hc3 : ¬(d.status = "unsynced" ∧ ("re-add" : String) = "skip") := by
      rintro ⟨-, hc⟩
      exact absurd hc (by decide)
    have hc4 : d.status = "unsynced" ∧ True := ⟨h1, trivial⟩
    simp only [Dotfile.sync]
    rw [if_neg (not_not_intro hmem), if_neg (by rw [h1]; decide),
      if_neg hc3, if_pos hc4]
    simp only [hdel, hmv, hsl]
  · simp [fsGet_fsInsert]
  · rw [fsGet_fsInsert]
    rw [if_neg (Ne.symm h4)]
    exact ht₂

/-- The filesystem of the C5 witness: a local edit at `~/.a` and a stale
repository copy at `/repo/a`. -/
def fsW5 : FS := [("/h/.a", Entry.file "new"), ("/repo/a", Entry.file "old")]

/-- Witness for C5: `re-add` on a concrete unsynced dotfile with an
existing target replaces the repository copy and links the name. -/
theorem sync_readd_behavior_witness :
    ∃ fs₃,
      Dotfile.sync (Dotfile.init fsW5 ".a" "/repo/a" "/h") "re-add" fsW5 =
        .ok ({ Dotfile.init fsW5 ".a" "/repo/a" "/h" with status := "" }, fs₃, []) ∧
      fsGet fs₃ (Dotfile.init fsW5 ".a" "/repo/a" "/h").name
        = some (Entry.link (Dotfile.init fsW5 ".a" "/repo/a" "/h").target) ∧
      fsGet fs₃ (Dotfile.init fsW5 ".a" "/repo/a" "/h").target
        = some (Entry.file "new") :=
  sync_readd_behavior fsW5 (Dotfile.init fsW5 ".a" "/repo/a" "/h") (Entry.file "new")
    (by decide) (by decide) (by decide) (by decide) (by decide)

/-- The mutating path of `Dotfile.add` on an unsynced dotfile whose name
holds a plain file and whose target is free: the file is moved into the
target and the name becomes a link to it. -/
theorem add_unsynced (fs : FS) (d : Dotfile) (c : String)
    (hst : d.status = "unsynced")
    (h1 : fsGet fs d.name = some (Entry.file c))
    (h2 : fsGet fs d.target = none)
    (h3 : underPath d.target d.name = false) :
    Dotfile.add d fs =
      .ok ({ d with status := "" },
        fsInsert d.name (Entry.link d.target) (moveTree d.name d.target fs),
        []) := by
  have hnt : d.name ≠ d.target := by
    intro hc
    rw [hc, h2] at h1
    cases h1
  have hlex : lexists fs d.name = true := by simp [lexists, h1]
  have hdir : isdir fs d.target = false := isdir_of_fsGet_none _ _ h2
  have hmv : shutilMove fs d.name d.target =
      .ok (moveTree d.name d.target fs) := by
    simp [shutilMove, hdir, rename, hlex, h2]
  have hn₁ : fsGet (moveTree d.name d.target fs) d.name = none :=
    fsGet_moveTree_src _ _ fs hnt h3
  have hsl : symlink (moveTree d.name d.target fs) d.target d.name =
      .ok (fsInsert d.name (Entry.link d.target) (moveTree d.name d.target fs)) := by
    simp [symlink, lexists, hn₁]
  simp only [Dotfile.add]
  rw [if_neg (by rw [hst]; decide), if_neg (by rw [hst]; decide)]
  simp only [hmv, hsl]

/-- The mutating path of `Dotfile.remove` on a synced dotfile: the link at
the name is removed and the target is moved back to the name.  The status
field is left unchanged (the source's last line compares instead of
assigning). -/
theorem remove_synced (fs : FS) (d : Dotfile) (l c : String)
    (hst : d.status = "")
    (h1 : fsGet fs d.name = some (Entry.link l))
    (h2 : fsGet fs d.target = some (Entry.file c))
    (htn : d.target ≠ d.name) :
    Dotfile.remove d fs =
      .ok (d, moveTree d.target d.name (eraseAll d.name fs), []) := by
  have hrm : osRemove fs d.name = .ok (eraseAll d.name fs) := by
    simp [osRemove, h1]
  have hn₃ : fsGet (eraseAll d.name fs) d.name = none := by
    simp [fsGet_eraseAll]
  have ht₃ : fsGet (eraseAll d.name fs) d.target = some (Entry.file c) := by
    rw [fsGet_eraseAll, if_neg htn]
    exact h2
  have hdir : isdir (eraseAll d.name fs) d.name = false :=
    isdir_of_fsGet_none _ _ hn₃
  have hlex : lexists (eraseAll d.name fs) d.target = true := by
    simp [lexists, ht₃]
  have hmv : shutilMove (eraseAll d.name fs) d.target d.name =
      .ok (moveTree d.target d.name (eraseAll d.name fs)) := by
    simp [shutilMove, hdir, rename, hlex, hn₃]
  simp only [Dotfile.remove]
  rw [if_neg (not_not_intro hst)]
  simp only [hrm, hmv]

/-- C4: on a dotfile built where a plain file sits at the computed name
and nothing is at the normalised target, `add()` followed by `remove()`
restores the original layout: the plain (non-link) file with its original
content is back at the name and nothing remains at the repository target.
The two `underPath` hypotheses say that neither path lies inside the
other, which always holds for a home-directory name and a repository
target. -/
theorem add_remove_roundtrip (fs : FS) (nm tg hm c : String)
    (h1 : fsGet fs (pathJoin hm nm) = some (Entry.file c))
    (h2 : fsGet fs (rstripSep tg) = none)
    (h3 : underPath (rstripSep tg) (pathJoin hm nm) = false)
    (h4 : underPath (pathJoin hm nm) (rstripSep tg) = false) :
    ∃ d₁ fs₂ d₂ fs₄,
      Dotfile.add (Dotfile.init fs nm tg hm) fs = .ok (d₁, fs₂, []) ∧
      Dotfile.remove d₁ fs₂ = .ok (d₂, fs₄, []) ∧
      fsGet fs₄ (pathJoin hm nm) = some (Entry.file c) ∧
      fsGet fs₄ (rstripSep tg) = none := by
  have hnt : pathJoin hm nm ≠ rstripSep tg := by
    intro hc
    rw [hc, h2] at h1
    cases h1
  have hlex : lexists fs (pathJoin hm nm) = true := by simp [lexists, h1]
  have hrp : realpath fs (pathJoin hm nm) = pathJoin hm nm :=
    realpath_of_islink_false _ _ (islink_of_fsGet_file _ _ _ h1)
  have hdn : (Dotfile.init fs nm tg hm).status = "unsynced" := by
    simp [Dotfile.init, hlex, hrp, hnt]
  have hadd := add_unsynced fs (Dotfile.init fs nm tg hm) c hdn h1 h2 h3
  have ht₁ : fsGet (moveTree (pathJoin hm nm) (rstripSep tg) fs) (rstripSep tg)
      = some (Entry.file c) := by
    rw [fsGet_moveTree_dst _ _ fs hnt h3]
    exact h1
  have hh1 : fsGet (fsInsert (pathJoin hm nm) (Entry.link (rstripSep tg))
        (moveTree (pathJoin hm nm) (rstripSep tg) fs)) (pathJoin hm nm)
      = some (Entry.link (rstripSep tg)) := by
    simp [fsGet_fsInsert]
  have hh2 : fsGet (fsInsert (pathJoin hm nm) (Entry.link (rstripSep tg))
        (moveTree (pathJoin hm nm) (rstripSep tg) fs)) (rstripSep tg)
      = some (Entry.file c) := by
    rw [fsGet_fsInsert, if_neg (Ne.symm hnt)]
    exact ht₁
  have hrem := remove_synced
    (fsInsert (pathJoin hm nm) (Entry.link (rstripSep tg))
      (moveTree (pathJoin hm nm) (rstripSep tg) fs))
    { Dotfile.init fs nm tg hm with status := "" }
    (rstripSep tg) c rfl hh1 hh2 (Ne.symm hnt)
  refine ⟨{ Dotfile.init fs nm tg hm with status := "" },
    fsInsert (pathJoin hm nm) (Entry.link (rstripSep tg))
      (moveTree (pathJoin hm nm) (rstripSep tg) fs),
    { Dotfile.init fs nm tg hm with status := "" },
    moveTree (rstripSep tg) (pathJoin hm nm)
      (eraseAll (pathJoin hm nm)
        (fsInsert (pathJoin hm nm) (Entry.link (rstripSep tg))
          (moveTree (pathJoin hm nm) (rstripSep tg) fs))),
    hadd, hrem, ?_, ?_⟩
  · rw [fsGet_moveTree_dst _ _ _ (Ne.symm hnt) h4, fsGet_eraseAll,
      if_neg (Ne.symm hnt), fsGet_fsInsert, if_neg (Ne.symm hnt)]
    exact ht₁
  · exact fsGet_moveTree_src _ _ _ (Ne.symm hnt) h4

/-- Witness for C4: add-then-remove on a concrete plain file `~/.a`
restores the original layout. -/
theorem add_remove_roundtrip_witness :
    ∃ d₁ fs₂ d₂ fs₄,
      Dotfile.add (Dotfile.init [("/h/.a", Entry.file "conf")] ".a" "/repo/a" "/h")
          [("/h/.a", Entry.file "conf")] = .ok (d₁, fs₂, []) ∧
      Dotfile.remove d₁ fs₂ = .ok (d₂, fs₄, []) ∧
      fsGet fs₄ (pathJoin "/h" ".a") = some (Entry.file "conf") ∧
      fsGet fs₄ (rstripSep "/repo/a") = none :=
  add_remove_roundtrip [("/h/.a", Entry.file "conf")] ".a" "/repo/a" "/h" "conf"
    (by decide) (by decide) (by decide) (by decide)

/-- The filesystem of the C9 counterexample: only a local file `~/.a`. -/
def fsC9 : FS := [("/h/.a", Entry.file "x")]

/-- First dotfile of the C9 counterexample: unsynced, target missing, so
`sync('re-add')` raises. -/
def d1C9 : Dotfile := Dotfile.init fsC9 ".a" "/repo/a" "/h"

/-- Second dotfile of the C9 counterexample: missing, so its sync would
simply create its link. -/
def d2C9 : Dotfile := Dotfile.init fsC9 ".b" "/repo/b" "/h"

/-- The repository of the C9 counterexample. -/
def dfC9 : Dotfiles :=
  { homedir := "/h", repository := "/repo", pfx := "dot-",
    ignore := [], externals := [], dotfiles := [d1C9, d2C9] }

/-- Counterexample to C9 as stated: with the valid mode `re-add`, the
first dotfile's sync raises (its target is missing) and the whole
repository sync stops with the filesystem untouched — while the second
dotfile, had it been processed, would have succeeded and created its
link.  So an error in one dotfile does abort the processing of the
remaining dotfiles. -/
theorem dotfiles_sync_error_aborts_counterexample :
    Dotfiles.sync dfC9 "re-add" fsC9 = .error (Err.fileNotFound "/repo/a", fsC9) ∧
    Dotfile.sync d2C9 "re-add" fsC9 =
      .ok ({ d2C9 with status := "" },
        [("/h/.b", Entry.link "/repo/b"), ("/h/.a", Entry.file "x")], []) ∧
    fsGet fsC9 d2C9.name = none :=
  ⟨by rfl, by rfl, by rfl⟩

/-- C9 (amended): repository-level sync applies `Dotfile.sync` to the
dotfiles sequentially; a dotfile whose sync completes without raising —
in particular one that merely reports a skip — does not abort the
processing of the remaining dotfiles, which continue from the resulting
state, while a dotfile whose sync raises an exception aborts the
processing of the remaining dotfiles. -/
theorem dotfiles_sync_partial_failure (d : Dotfile) (rest : List Dotfile)
    (m : String) (fs : FS) :
    (∀ d₁ fs₁ out₁ ds fs₂ out₂,
      Dotfile.sync d m fs = .ok (d₁, fs₁, out₁) →
      syncAll rest m fs₁ = .ok (ds, fs₂, out₂) →
      syncAll (d :: rest) m fs = .ok (d₁ :: ds, fs₂, out₁ ++ out₂)) ∧
    (∀ e, Dotfile.sync d m fs = .error e →
      syncAll (d :: rest) m fs = .error e) := by
  constructor
  · intro d₁ fs₁ out₁ ds fs₂ out₂ hok hrest
    simp [syncAll, hok, hrest]
  · intro e herr
    simp [syncAll, herr]

/-- Witness for C9 (amended): a concrete skip is followed by the
processing of the next dotfile, and a concrete raising dotfile aborts. -/
theorem dotfiles_sync_partial_failure_witness :
    syncAll
        [{ name := "/h/.a", basename := ".a", target := "/r/a", status := "unsynced" },
         { name := "/h/.b", basename := ".b", target := "/r/b", status := "missing" }]
        "skip" [] =
      .ok ([{ name := "/h/.a", basename := ".a", target := "/r/a", status := "unsynced" },
            { name := "/h/.b", basename := ".b", target := "/r/b", status := "" }],
        [("/h/.b", Entry.link "/r/b")],
        ["Skipping \".a\", use --force or --re-add to override"]) ∧
    syncAll [{ name := "/h/.c", basename := ".c", target := "/r/c", status := "unsynced" }]
        "re-add" [("/h/.c", Entry.file "z")] =
      .error (Err.fileNotFound "/r/c", [("/h/.c", Entry.file "z")]) :=
  ⟨(dotfiles_sync_partial_failure
      { name := "/h/.a", basename := ".a", target := "/r/a", status := "unsynced" }
      [{ name := "/h/.b", basename := ".b", target := "/r/b", status := "missing" }]
      "skip" []).1 _ _ _ _ _ _ (by rfl) (by rfl),
   (dotfiles_sync_partial_failure
      { name := "/h/.c", basename := ".c", target := "/r/c", status := "unsynced" }
      [] "re-add" [("/h/.c", Entry.file "z")]).2 _ (by rfl)⟩

/-- Witness for C8 at a concrete repository holding `dot-vimrc` with
prefix `dot-`. -/
theorem load_derives_names_witness :
    ∃ d ∈ (Dotfiles.load
        { homedir := "/h", repository := "/repo", pfx := "dot-",
          ignore := ["*.bak"], externals := [], dotfiles := [] }
        "/h" [("/repo/dot-vimrc", Entry.file "v"), ("/repo", Entry.dir)]).dotfiles,
      d.name = pathJoin "/h" ("." ++ dropChars "dot-vimrc" "dot-".length) ∧
      d.target = rstripSep (pathJoin "/repo" "dot-vimrc") :=
  load_derives_names [("/repo/dot-vimrc", Entry.file "v"), ("/repo", Entry.dir)]
    { homedir := "/h", repository := "/repo", pfx := "dot-",
      ignore := ["*.bak"], externals := [], dotfiles := [] }
    "/h" "dot-vimrc" (by decide) (by decide)

end DotfilesCore
